import Mathlib

/-!
Shallow embedding of the Offuscate privacy-pool program
(`src/programs/offuscate/src/`, an Anchor/Solana program) and proofs of the
frozen claims about it.

Machine integers: `u64` values are modelled as `Nat` with explicit
`% 2^64` where the source uses wrapping arithmetic, explicit overflow
failure where the source uses `checked_add`, and explicit clamping where
the source uses `saturating_add`.  `i64` timestamps are modelled as `Int`.

Account state: each Anchor account kind (PrivacyPool, PendingWithdraw,
CommitmentPDA, NullifierPDA, ChurnVaultState) becomes a Lean structure;
the per-key PDA ledgers become maps `key -> Option record` with Anchor's
`init` constraint modelled as creation-fails-if-present.  The SHA-256
hash used by the program is supplied by the execution host and is kept
abstract: every definition that hashes takes the hash function `H` as an
explicit argument.
-/

namespace Offuscate

/-- 2^64, the modulus of `u64` arithmetic. -/
def U64MOD : Nat := 18446744073709551616

/-- Rust `u64::checked_add`: fails (whole instruction aborts) on overflow. -/
def checkedAdd (a b : Nat) : Option Nat :=
  if a + b < U64MOD then some (a + b) else none

/-- Rust `u64::saturating_add`: clamps at `u64::MAX`. -/
def satAdd (a b : Nat) : Nat :=
  min (a + b) (U64MOD - 1)

/-- Rust `u64::wrapping_add`. -/
def wAdd (a b : Nat) : Nat := (a + b) % U64MOD

/-- Rust `u64::wrapping_mul`. -/
def wMul (a b : Nat) : Nat := (a * b) % U64MOD

/-- `u64::to_le_bytes`: the 8 little-endian base-256 digits of `a`. -/
def leBytes8 (a : Nat) : List Nat :=
  [a % 256, a / 256 % 256, a / 256 ^ 2 % 256, a / 256 ^ 3 % 256,
   a / 256 ^ 4 % 256, a / 256 ^ 5 % 256, a / 256 ^ 6 % 256, a / 256 ^ 7 % 256]

/-- Recompose a number from its 8 little-endian bytes. -/
def leDecode8 (l : List Nat) : Nat :=
  match l with
  | [b0, b1, b2, b3, b4, b5, b6, b7] =>
      b0 + 256 * b1 + 256 ^ 2 * b2 + 256 ^ 3 * b3 + 256 ^ 4 * b4 +
        256 ^ 5 * b5 + 256 ^ 6 * b6 + 256 ^ 7 * b7
  | _ => 0

/-- constants.rs: `MIN_DELAY_SECONDS = 30`. -/
def MIN_DELAY_SECONDS : Int := 30

/-- constants.rs: `MAX_DELAY_SECONDS = 300`. -/
def MAX_DELAY_SECONDS : Int := 300

/-- constants.rs: `ALLOWED_AMOUNTS = [100_000_000, 500_000_000, 1_000_000_000]`. -/
def ALLOWED_AMOUNTS : List Nat := [100000000, 500000000, 1000000000]

/-- The fixed multiplier `0x5851F42D4C957F2D` used to mix withdrawal-delay
entropy in `request_withdraw`. -/
def ENTROPY_MULTIPLIER : Nat := 0x5851F42D4C957F2D

/-- A 32-byte public key / hash value, modelled as its list of bytes. -/
abbrev Key := List Nat

/-- handlers/privacy_pool.rs `request_withdraw`: the wrapping-u64 entropy
`slot.wrapping_add(recipient[0]).wrapping_add(recipient[31]).wrapping_mul(0x5851F42D4C957F2D)`. -/
def withdrawEntropy (slot b0 b31 : Nat) : Nat :=
  wMul (wAdd (wAdd slot b0) b31) ENTROPY_MULTIPLIER

/-- handlers/privacy_pool.rs `request_withdraw`:
`MIN_DELAY_SECONDS + ((entropy % delay_range) as i64)` where
`delay_range = (MAX_DELAY_SECONDS - MIN_DELAY_SECONDS) as u64`. -/
def variableDelay (slot b0 b31 : Nat) : Int :=
  MIN_DELAY_SECONDS +
    Int.ofNat (withdrawEntropy slot b0 b31 % (MAX_DELAY_SECONDS - MIN_DELAY_SECONDS).toNat)

/-- handlers/commitment.rs `withdraw`: the 72-byte preimage
`secret_hash (32) ++ nullifier (32) ++ amount.to_le_bytes() (8)`,
concatenated in that order with no padding or length prefix. -/
def commitmentPreimage (secretHash nullifier : Key) (amount : Nat) : List Nat :=
  secretHash ++ nullifier ++ leBytes8 amount

/-- `compute_commitment`: hash of the 72-byte preimage, for an abstract
host hash function `H` (the program uses the host's SHA-256). -/
def computeCommitment (H : List Nat → Key) (secretHash nullifier : Key)
    (amount : Nat) : Key :=
  H (commitmentPreimage secretHash nullifier amount)

/-- The commitment-proof check performed by `withdraw`
(handlers/commitment.rs lines 64-75): recompute and compare with the
stored commitment. -/
def verifyCommitmentProof (H : List Nat → Key) (stored : Key)
    (secretHash nullifier : Key) (amount : Nat) : Bool :=
  computeCommitment H secretHash nullifier amount == stored

/-- state/privacy_pool.rs `PrivacyPool`. -/
structure PrivacyPool where
  total_deposited : Nat
  total_withdrawn : Nat
  deposit_count : Nat
  withdraw_count : Nat
  churn_count : Nat
  deriving Repr, DecidableEq

/-- state/privacy_pool.rs `PendingWithdraw`. -/
structure PendingWithdraw where
  recipient : Key
  amount : Nat
  requested_at : Int
  available_at : Int
  claimed : Bool
  deriving Repr, DecidableEq

/-- state/commitment.rs `CommitmentPDA`. -/
structure CommitmentPDA where
  commitment : Key
  amount : Nat
  timestamp : Int
  spent : Bool
  deriving Repr, DecidableEq

/-- state/commitment.rs `NullifierPDA`. -/
structure NullifierPDA where
  nullifier : Key
  used_at : Int
  deriving Repr, DecidableEq

/-- state/privacy_pool.rs `ChurnVaultState` (stats only; the vault's
lamport balance lives in the chain state below). -/
structure ChurnVaultState where
  vault_index : Nat
  total_churned : Nat
  churn_count : Nat
  deriving Repr, DecidableEq

/-- The detached ed25519 verification instruction as seen through the
instructions sysvar: the program that produced it and the signer public
key declared in its payload. -/
structure Ed25519Ix where
  programId : Nat
  signer : Key
  deriving Repr, DecidableEq

/-- The well-known address of the host's ed25519 signature-verification
program (`anchor_lang::solana_program::ed25519_program::ID`), abstracted
to a distinguished tag. -/
def ED25519_PROGRAM_ID : Nat := 1

/-- The whole on-chain state touched by the privacy pool: the singleton
pool account, the pool vault's lamport balance, the three churn vaults
(state PDA and lamport balance per index), and the three per-key PDA
ledgers.  PDA creation with `init` fails if the key is already present. -/
structure Chain where
  pool : PrivacyPool
  poolVault : Nat
  churnStates : Nat → Option ChurnVaultState
  churnVaults : Nat → Nat
  pendings : Key → Option PendingWithdraw
  commitments : Key → Option CommitmentPDA
  nullifiers : Key → Option NullifierPDA

/-- The state right after `init_privacy_pool`: all counters zero, all
ledgers empty, no lamports in custody. -/
def initChain : Chain where
  pool := ⟨0, 0, 0, 0, 0⟩
  poolVault := 0
  churnStates := fun _ => none
  churnVaults := fun _ => 0
  pendings := fun _ => none
  commitments := fun _ => none
  nullifiers := fun _ => none

/-- Update one entry of a map. -/
def upd {α : Type} [DecidableEq α] {β : Type} (f : α → β) (k : α) (v : β) :
    α → β :=
  fun k' => if k' = k then v else f k'

/-- Errors of the program (errors.rs), plus the host-level failures the
program relies on: `AccountAlreadyInitialized` (Anchor `init` on an
occupied PDA), `AccountNotFound` (a referenced PDA does not exist),
`TransferFailed` (the system-program transfer found insufficient
lamports) and `MissingInstruction` (no instruction at sysvar index 0). -/
inductive Err where
  | InvalidAmount
  | InvalidWithdrawAmount
  | InsufficientPoolFunds
  | WithdrawNotReady
  | AlreadyClaimed
  | Overflow
  | Unauthorized
  | BatchTooSmall
  | BatchInvalidPairs
  | BatchTooLarge
  | InvalidChurnIndex
  | InsufficientChurnFunds
  | InvalidSignatureInstruction
  | SignerMismatch
  | NullifierAlreadyUsed
  | InvalidCommitmentProof
  | AccountAlreadyInitialized
  | AccountNotFound
  | TransferFailed
  | MissingInstruction
  deriving Repr, DecidableEq

/-- lib.rs `pool_deposit`: requires `amount > 0` only, transfers `amount`
from the depositor to the pool vault, then `checked_add`s the pool
aggregates.  `depositorBal` is the depositor's lamport balance; the
host's transfer fails if it is insufficient, aborting the instruction. -/
def pool_deposit (c : Chain) (amount depositorBal : Nat) : Except Err Chain :=
  if amount = 0 then .error .InvalidAmount
  else if depositorBal < amount then .error .TransferFailed
  else
    match checkedAdd c.pool.total_deposited amount,
          checkedAdd c.pool.deposit_count 1 with
    | some td, some dc =>
        .ok { c with
                poolVault := c.poolVault + amount,
                pool := { c.pool with total_deposited := td, deposit_count := dc } }
    | _, _ => .error .Overflow

/-- lib.rs `request_withdraw`: Anchor `init`s the PendingWithdraw PDA at
seeds `["pending", recipient]` (fails if present), then the handler
requires `amount ∈ ALLOWED_AMOUNTS`, requires `amount ≤ pool balance`,
and records the pending withdrawal with the pseudo-random delay. -/
def request_withdraw (c : Chain) (recipient : Key) (amount : Nat) (now : Int)
    (slot : Nat) : Except Err Chain :=
  if (c.pendings recipient).isSome then .error .AccountAlreadyInitialized
  else if amount ∉ ALLOWED_AMOUNTS then .error .InvalidWithdrawAmount
  else if c.poolVault < amount then .error .InsufficientPoolFunds
  else
    let delay := variableDelay slot (recipient.headD 0) (recipient.getD 31 0)
    .ok { c with
            pendings := upd c.pendings recipient
              (some ⟨recipient, amount, now, now + delay, false⟩) }

/-- lib.rs `claim_withdraw`: the PendingWithdraw PDA at
seeds `["pending", recipient]` must exist and its stored recipient must
equal the signer (Anchor constraint, `Unauthorized`); then requires
`!claimed` (`AlreadyClaimed`), `now ≥ available_at` (`WithdrawNotReady`),
transfers `amount` from the pool vault (host transfer fails on
insufficient funds), marks claimed, and `checked_add`s the aggregates. -/
def claim_withdraw (c : Chain) (recipient : Key) (now : Int) :
    Except Err Chain :=
  match c.pendings recipient with
  | none => .error .AccountNotFound
  | some p =>
    if p.recipient ≠ recipient then .error .Unauthorized
    else if p.claimed then .error .AlreadyClaimed
    else if now < p.available_at then .error .WithdrawNotReady
    else if c.poolVault < p.amount then .error .TransferFailed
    else
      match checkedAdd c.pool.total_withdrawn p.amount,
            checkedAdd c.pool.withdraw_count 1 with
      | some tw, some wc =>
          .ok { c with
                  poolVault := c.poolVault - p.amount,
                  pendings := upd c.pendings recipient
                    (some { p with claimed := true }),
                  pool := { c.pool with total_withdrawn := tw, withdraw_count := wc } }
      | _, _ => .error .Overflow

/-- lib.rs `claim_withdraw_relayed`: the caller-supplied PendingWithdraw
PDA (`pendKey`) must exist and match the supplied recipient account
(Anchor constraint); requires `!claimed`, `now ≥ available_at`,
re-checks recipient = stored recipient (`SignerMismatch`), loads the
instruction at sysvar index 0 and requires only that its `program_id`
is the ed25519 program — the declared signer inside that instruction is
never inspected.  Then transfers and updates aggregates. -/
def claim_withdraw_relayed (c : Chain) (recipientKey pendKey : Key)
    (now : Int) (firstIx : Option Ed25519Ix) : Except Err Chain :=
  match c.pendings pendKey with
  | none => .error .AccountNotFound
  | some p =>
    if p.recipient ≠ recipientKey then .error .Unauthorized
    else if p.claimed then .error .AlreadyClaimed
    else if now < p.available_at then .error .WithdrawNotReady
    else if recipientKey ≠ p.recipient then .error .SignerMismatch
    else
      match firstIx with
      | none => .error .MissingInstruction
      | some ix =>
        if ix.programId ≠ ED25519_PROGRAM_ID then .error .InvalidSignatureInstruction
        else if c.poolVault < p.amount then .error .TransferFailed
        else
          match checkedAdd c.pool.total_withdrawn p.amount,
                checkedAdd c.pool.withdraw_count 1 with
          | some tw, some wc =>
              .ok { c with
                      poolVault := c.poolVault - p.amount,
                      pendings := upd c.pendings pendKey
                        (some { p with claimed := true }),
                      pool := { c.pool with total_withdrawn := tw, withdraw_count := wc } }
          | _, _ => .error .Overflow

/-- lib.rs `private_deposit`: Anchor `init`s the CommitmentPDA at seeds
`["commitment", commitment]` (fails if a record with that key exists —
this is the one-deposit-per-commitment guard); the handler requires
`amount ∈ ALLOWED_AMOUNTS`, transfers from the depositor, stores the
record with `spent = false`, and `checked_add`s the aggregates. -/
def private_deposit (c : Chain) (commitment : Key) (amount depositorBal : Nat)
    (now : Int) : Except Err Chain :=
  if (c.commitments commitment).isSome then .error .AccountAlreadyInitialized
  else if amount ∉ ALLOWED_AMOUNTS then .error .InvalidWithdrawAmount
  else if depositorBal < amount then .error .TransferFailed
  else
    match checkedAdd c.pool.total_deposited amount,
          checkedAdd c.pool.deposit_count 1 with
    | some td, some dc =>
        .ok { c with
                poolVault := c.poolVault + amount,
                commitments := upd c.commitments commitment
                  (some ⟨commitment, amount, now, false⟩),
                pool := { c.pool with total_deposited := td, deposit_count := dc } }
    | _, _ => .error .Overflow

/-- Common core of lib.rs `private_withdraw` and
`private_withdraw_relayed` (their bodies are identical except that the
relayed variant additionally checks the instruction at sysvar index 0;
`relayIx = none` selects the direct path, `relayIx = some firstIx` the
relayed path).  Anchor resolves the caller-supplied CommitmentPDA
(`commKey`) and `init`s the NullifierPDA at seeds
`["nullifier", nullifier]` (fails if that nullifier record exists — the
double-spend guard).  The handler requires `amount ∈ ALLOWED_AMOUNTS`,
recomputes `hash(secret_hash ++ nullifier ++ amount.to_le_bytes())` and
requires it to equal the stored commitment (`InvalidCommitmentProof`),
requires `!spent` (`NullifierAlreadyUsed`) and
`stored amount = amount` (`InvalidAmount`), marks the commitment spent,
creates the nullifier record, transfers `amount` to `recipient` (any
address — it is not part of any check), and updates the aggregates. -/
def private_withdraw_core (H : List Nat → Key) (c : Chain)
    (commKey nullifier secretHash recipient : Key) (amount : Nat) (now : Int)
    (relayIx : Option (Option Ed25519Ix)) : Except Err Chain :=
  match c.commitments commKey with
  | none => .error .AccountNotFound
  | some cr =>
    if (c.nullifiers nullifier).isSome then .error .AccountAlreadyInitialized
    else if amount ∉ ALLOWED_AMOUNTS then .error .InvalidWithdrawAmount
    else
      let ixCheck : Option Err :=
        match relayIx with
        | none => none
        | some none => some .MissingInstruction
        | some (some ix) =>
            if ix.programId ≠ ED25519_PROGRAM_ID then some .InvalidSignatureInstruction
            else none
      match ixCheck with
      | some e => .error e
      | none =>
        if ¬ verifyCommitmentProof H cr.commitment secretHash nullifier amount then
          .error .InvalidCommitmentProof
        else if cr.spent then .error .NullifierAlreadyUsed
        else if cr.amount ≠ amount then .error .InvalidAmount
        else if c.poolVault < amount then .error .TransferFailed
        else
          match checkedAdd c.pool.total_withdrawn amount,
                checkedAdd c.pool.withdraw_count 1 with
          | some tw, some wc =>
              .ok { c with
                      poolVault := c.poolVault - amount,
                      commitments := upd c.commitments commKey
                        (some { cr with spent := true }),
                      nullifiers := upd c.nullifiers nullifier
                        (some ⟨nullifier, now⟩),
                      pool := { c.pool with total_withdrawn := tw, withdraw_count := wc } }
          | _, _ => .error .Overflow

/-- lib.rs `private_withdraw`. -/
def private_withdraw (H : List Nat → Key) (c : Chain)
    (commKey nullifier secretHash recipient : Key) (amount : Nat)
    (now : Int) : Except Err Chain :=
  private_withdraw_core H c commKey nullifier secretHash recipient amount now none

/-- lib.rs `private_withdraw_relayed`. -/
def private_withdraw_relayed (H : List Nat → Key) (c : Chain)
    (commKey nullifier secretHash recipient : Key) (amount : Nat) (now : Int)
    (firstIx : Option Ed25519Ix) : Except Err Chain :=
  private_withdraw_core H c commKey nullifier secretHash recipient amount now
    (some firstIx)

/-- Accumulator threaded through the `batch_claim_withdraw` loop:
the pool vault's current balance, the pending ledger, and the running
`total_claimed` / `success_count` of lib.rs `batch_claim_withdraw`. -/
structure BatchAcc where
  vault : Nat
  pendings : Key → Option PendingWithdraw
  total_claimed : Nat
  success_count : Nat

/-- One iteration of the lib.rs `batch_claim_withdraw` loop for the pair
(recipient account, pending account).  The pending account is identified
by the recipient key its PDA was derived from; a pair whose second
account holds no valid PendingWithdraw data is the source's "invalid
pending account" skip.  Each failed check `continue`s (skips) without
aborting; a success moves lamports, marks the record claimed in place,
`saturating_add`s `total_claimed` and increments `success_count`. -/
def batch_step (now : Int) (acc : BatchAcc) (pair : Key × Key) : BatchAcc :=
  match acc.pendings pair.2 with
  | none => acc
  | some p =>
    if p.recipient ≠ pair.1 then acc
    else if p.claimed then acc
    else if now < p.available_at then acc
    else if acc.vault < p.amount then acc
    else
      { vault := acc.vault - p.amount,
        pendings := upd acc.pendings pair.2 (some { p with claimed := true }),
        total_claimed := satAdd acc.total_claimed p.amount,
        success_count := acc.success_count + 1 }

/-- Group a flat account list into consecutive (recipient, pending)
pairs, as `remaining[i*2]` / `remaining[i*2+1]` in the source loop. -/
def toPairs {α : Type} : List α → List (α × α)
  | a :: b :: rest => (a, b) :: toPairs rest
  | _ => []

/-- lib.rs `batch_claim_withdraw`: hard-fails only on the structure of
the flattened remaining-accounts list (`len ≥ 2`, even, `≤ 10`); then
best-effort processes each pair with `batch_step` and, if any succeeded,
`saturating_add`s the totals into the pool aggregates. -/
def batch_claim_withdraw (c : Chain) (remaining : List Key) (now : Int) :
    Except Err Chain :=
  if remaining.length < 2 then .error .BatchTooSmall
  else if remaining.length % 2 ≠ 0 then .error .BatchInvalidPairs
  else if 10 < remaining.length then .error .BatchTooLarge
  else
    let acc := (toPairs remaining).foldl (batch_step now)
      ⟨c.poolVault, c.pendings, 0, 0⟩
    let pool :=
      if 0 < acc.success_count then
        { c.pool with
            total_withdrawn := satAdd c.pool.total_withdrawn acc.total_claimed,
            withdraw_count := satAdd c.pool.withdraw_count acc.success_count }
      else c.pool
    .ok { c with poolVault := acc.vault, pendings := acc.pendings, pool := pool }

/-- lib.rs `init_churn_vault`: Anchor `init`s the ChurnVaultState PDA at
seeds `["churn_state", vault_index]` (fails if present); the handler
requires `vault_index < 3`. -/
def init_churn_vault (c : Chain) (vault_index : Nat) : Except Err Chain :=
  if (c.churnStates vault_index).isSome then .error .AccountAlreadyInitialized
  else if ¬ vault_index < 3 then .error .InvalidChurnIndex
  else .ok { c with
               churnStates := upd c.churnStates vault_index (some ⟨vault_index, 0, 0⟩) }

/-- lib.rs `pool_churn`: the churn state PDA must exist; requires
`amount > 0` and `amount ≤ pool balance`; moves lamports from the pool
vault to the indexed churn vault and `saturating_add`s the statistics. -/
def pool_churn (c : Chain) (vault_index amount : Nat) : Except Err Chain :=
  match c.churnStates vault_index with
  | none => .error .AccountNotFound
  | some st =>
    if amount = 0 then .error .InvalidAmount
    else if c.poolVault < amount then .error .InsufficientPoolFunds
    else
      .ok { c with
              poolVault := c.poolVault - amount,
              churnVaults := upd c.churnVaults vault_index
                (c.churnVaults vault_index + amount),
              churnStates := upd c.churnStates vault_index
                (some { st with
                          total_churned := satAdd st.total_churned amount,
                          churn_count := satAdd st.churn_count 1 }),
              pool := { c.pool with churn_count := satAdd c.pool.churn_count 1 } }

/-- lib.rs `pool_unchurn`: the churn state PDA must exist; requires
`amount > 0` and `amount ≤ churn vault balance`; moves lamports from the
indexed churn vault back to the pool vault (no further bookkeeping). -/
def pool_unchurn (c : Chain) (vault_index amount : Nat) : Except Err Chain :=
  match c.churnStates vault_index with
  | none => .error .AccountNotFound
  | some _ =>
    if amount = 0 then .error .InvalidAmount
    else if c.churnVaults vault_index < amount then .error .InsufficientChurnFunds
    else
      .ok { c with
              poolVault := c.poolVault + amount,
              churnVaults := upd c.churnVaults vault_index
                (c.churnVaults vault_index - amount) }

/-- One externally invocable privacy-pool instruction, with the
caller-supplied arguments and the host-supplied environment (clock,
slot, depositor balance, first bundled instruction) it runs under. -/
inductive Op where
  | poolDeposit (amount depositorBal : Nat)
  | requestWithdraw (recipient : Key) (amount : Nat) (now : Int) (slot : Nat)
  | claimWithdraw (recipient : Key) (now : Int)
  | claimWithdrawRelayed (recipientKey pendKey : Key) (now : Int)
      (firstIx : Option Ed25519Ix)
  | privateDeposit (commitment : Key) (amount depositorBal : Nat) (now : Int)
  | privateWithdraw (commKey nullifier secretHash recipient : Key)
      (amount : Nat) (now : Int)
  | privateWithdrawRelayed (commKey nullifier secretHash recipient : Key)
      (amount : Nat) (now : Int) (firstIx : Option Ed25519Ix)
  | batchClaim (remaining : List Key) (now : Int)
  | initChurnVault (vault_index : Nat)
  | poolChurn (vault_index amount : Nat)
  | poolUnchurn (vault_index amount : Nat)

/-- Dispatch one instruction. -/
def exec (H : List Nat → Key) (c : Chain) : Op → Except Err Chain
  | .poolDeposit a bal => pool_deposit c a bal
  | .requestWithdraw r a now slot => request_withdraw c r a now slot
  | .claimWithdraw r now => claim_withdraw c r now
  | .claimWithdrawRelayed r pk now ix => claim_withdraw_relayed c r pk now ix
  | .privateDeposit cm a bal now => private_deposit c cm a bal now
  | .privateWithdraw ck n sh r a now => private_withdraw H c ck n sh r a now
  | .privateWithdrawRelayed ck n sh r a now ix =>
      private_withdraw_relayed H c ck n sh r a now ix
  | .batchClaim rem now => batch_claim_withdraw c rem now
  | .initChurnVault i => init_churn_vault c i
  | .poolChurn i a => pool_churn c i a
  | .poolUnchurn i a => pool_unchurn c i a

/-- A transaction either fully applies or fully aborts: on error the
chain state is unchanged. -/
def runOp (H : List Nat → Key) (c : Chain) (op : Op) : Chain :=
  match exec H c op with
  | .ok c' => c'
  | .error _ => c

/-- Run a sequence of instructions from a state. -/
def runOps (H : List Nat → Key) (c : Chain) (ops : List Op) : Chain :=
  ops.foldl (runOp H) c

/-- The custody balance: lamports in the main pool vault plus in the
three churn vaults. -/
def custody (c : Chain) : Nat :=
  c.poolVault + (c.churnVaults 0 + c.churnVaults 1 + c.churnVaults 2)

/-- The pool bookkeeping invariant: custody plus cumulative withdrawals
equals cumulative deposits (so `total_withdrawn ≤ total_deposited` and
`custody = total_deposited - total_withdrawn`), and the `u64` aggregate
`total_deposited` has not overflowed. -/
def Inv (c : Chain) : Prop :=
  custody c + c.pool.total_withdrawn = c.pool.total_deposited ∧
  c.pool.total_deposited < U64MOD ∧
  ∀ i, 3 ≤ i → c.churnStates i = none

/-- A concrete stand-in for the host hash, used to instantiate theorems
that take the hash function as a parameter. -/
def idHash : List Nat → Key := fun l => l

theorem leDecode8_leBytes8 (a : Nat) (h : a < U64MOD) :
    leDecode8 (leBytes8 a) = a := by
  simp only [leBytes8, leDecode8, U64MOD] at *
  norm_num
  omega

theorem leBytes8_inj (a b : Nat) (ha : a < U64MOD) (hb : b < U64MOD)
    (h : leBytes8 a = leBytes8 b) : a = b := by
  have := leDecode8_leBytes8 a ha
  have := leDecode8_leBytes8 b hb
  rw [h] at *
  omega

theorem leBytes8_length (a : Nat) : (leBytes8 a).length = 8 := by
  simp [leBytes8]

/-- The 72-byte preimage encoding is injective on well-formed inputs. -/
theorem commitmentPreimage_inj (sh n sh' n' : Key) (a a' : Nat)
    (hsh : sh.length = 32) (hsh' : sh'.length = 32)
    (ha : a < U64MOD) (ha' : a' < U64MOD)
    (h : commitmentPreimage sh' n' a' = commitmentPreimage sh n a)
    (hn : n.length = 32) (hn' : n'.length = 32) :
    sh' = sh ∧ n' = n ∧ a' = a := by
  unfold commitmentPreimage at h
  rw [List.append_assoc, List.append_assoc] at h
  obtain ⟨h1, h2⟩ := List.append_inj h (by rw [hsh, hsh'])
  obtain ⟨h3, h4⟩ := List.append_inj h2 (by rw [hn, hn'])
  exact ⟨h1, h3, leBytes8_inj a' a ha' ha h4⟩

/-- C5: a `request_withdraw` whose preconditions hold succeeds and
records a PendingWithdrawal whose delay is
`entropy = slot ⊞ recipient[0] ⊞ recipient[31] ⊠ 0x5851F42D4C957F2D`
(64-bit wrapping add/mul), `available_at = requested_at + 30 + (entropy mod 270)`
with the multiplier odd, hence `30 ≤ available_at − requested_at < 300`. -/
theorem withdraw_delay_bounds (c : Chain) (recipient : Key) (amount : Nat)
    (now : Int) (slot : Nat)
    (hpend : c.pendings recipient = none)
    (hamt : amount ∈ ALLOWED_AMOUNTS)
    (hbal : amount ≤ c.poolVault) :
    ∃ c' p, request_withdraw c recipient amount now slot = .ok c' ∧
      c'.pendings recipient = some p ∧
      p.amount = amount ∧
      p.requested_at = now ∧
      p.available_at =
        now + variableDelay slot (recipient.headD 0) (recipient.getD 31 0) ∧
      variableDelay slot (recipient.headD 0) (recipient.getD 31 0) =
        MIN_DELAY_SECONDS + Int.ofNat
          (withdrawEntropy slot (recipient.headD 0) (recipient.getD 31 0) % 270) ∧
      ENTROPY_MULTIPLIER % 2 = 1 ∧
      30 ≤ p.available_at - p.requested_at ∧
      p.available_at - p.requested_at < 300 := by
  have hmod : withdrawEntropy slot (recipient.headD 0) (recipient.getD 31 0) % 270 < 270 :=
    Nat.mod_lt _ (by norm_num)
  have htn : (MAX_DELAY_SECONDS - MIN_DELAY_SECONDS).toNat = 270 := rfl
  simp only [request_withdraw, hpend, Option.isSome_none, Bool.false_eq_true,
    if_false, hamt, not_true, Nat.not_lt.mpr hbal]
  refine ⟨_,
    ⟨recipient, amount, now,
      now + variableDelay slot (recipient.headD 0) (recipient.getD 31 0), false⟩,
    rfl, by simp [upd], rfl, rfl, rfl, ?_, by decide, ?_, ?_⟩
  · simp only [variableDelay, htn]
  · simp only [variableDelay, htn, Int.ofNat_eq_coe]
    have hmin : MIN_DELAY_SECONDS = 30 := rfl
    omega
  · simp only [variableDelay, htn, Int.ofNat_eq_coe]
    have hmin : MIN_DELAY_SECONDS = 30 := rfl
    omega

/-- Witness for C5 at a concrete state and inputs. -/
theorem withdraw_delay_bounds_witness :
    ({ initChain with poolVault := 1000000000 } : Chain).pendings
        (List.replicate 32 7) = none ∧
    (100000000 ∈ ALLOWED_AMOUNTS) ∧
    (100000000 ≤ ({ initChain with poolVault := 1000000000 } : Chain).poolVault) ∧
    (∃ c' p, request_withdraw { initChain with poolVault := 1000000000 }
        (List.replicate 32 7) 100000000 50 12345 = .ok c' ∧
      c'.pendings (List.replicate 32 7) = some p ∧
      p.amount = 100000000 ∧
      p.requested_at = 50 ∧
      p.available_at =
        50 + variableDelay 12345 ((List.replicate 32 7).headD 0)
          ((List.replicate 32 7).getD 31 0) ∧
      variableDelay 12345 ((List.replicate 32 7).headD 0)
          ((List.replicate 32 7).getD 31 0) =
        MIN_DELAY_SECONDS + Int.ofNat
          (withdrawEntropy 12345 ((List.replicate 32 7).headD 0)
            ((List.replicate 32 7).getD 31 0) % 270) ∧
      ENTROPY_MULTIPLIER % 2 = 1 ∧
      30 ≤ p.available_at - p.requested_at ∧
      p.available_at - p.requested_at < 300) :=
  ⟨rfl, by decide, by decide,
    withdraw_delay_bounds _ _ _ _ _ rfl (by decide) (by decide)⟩

/-- C6: the commitment recomputed at withdrawal time is the hash of the
exact 72-byte concatenation `sh ++ n ++ LE(a)` (no padding, no length
prefix): the round-trip check passes; the encoding is injective, so a
withdrawal supplying any differing preimage part presents a different
preimage and can only pass the check through a hash collision; and in
`private_withdraw` a failing commitment-proof check yields
`InvalidCommitmentProof`, while a passing one (with the other
preconditions) succeeds. -/
theorem commitment_roundtrip (H : List Nat → Key) (sh n sh' n' : Key)
    (a a' : Nat) (hsh : sh.length = 32) (hn : n.length = 32)
    (hsh' : sh'.length = 32) (hn' : n'.length = 32)
    (ha : a < U64MOD) (ha' : a' < U64MOD) :
    verifyCommitmentProof H (computeCommitment H sh n a) sh n a = true ∧
    (commitmentPreimage sh n a).length = 72 ∧
    (¬ (sh' = sh ∧ n' = n ∧ a' = a) →
      commitmentPreimage sh' n' a' ≠ commitmentPreimage sh n a ∧
      (verifyCommitmentProof H (computeCommitment H sh n a) sh' n' a' = true →
        H (commitmentPreimage sh' n' a') = H (commitmentPreimage sh n a))) ∧
    (∀ (c : Chain) (cr : CommitmentPDA) (ck r : Key) (now : Int),
      c.commitments ck = some cr → c.nullifiers n' = none →
      a' ∈ ALLOWED_AMOUNTS →
      verifyCommitmentProof H cr.commitment sh' n' a' = false →
      private_withdraw H c ck n' sh' r a' now = .error .InvalidCommitmentProof) ∧
    (∀ (c : Chain) (cr : CommitmentPDA) (ck r : Key) (now : Int),
      c.commitments ck = some cr → c.nullifiers n' = none →
      a' ∈ ALLOWED_AMOUNTS →
      verifyCommitmentProof H cr.commitment sh' n' a' = true →
      cr.spent = false → cr.amount = a' → a' ≤ c.poolVault →
      c.pool.total_withdrawn + a' < U64MOD →
      c.pool.withdraw_count + 1 < U64MOD →
      (private_withdraw H c ck n' sh' r a' now).isOk = true) := by
  refine ⟨?_, ?_, ?_, ?_, ?_⟩
  · simp [verifyCommitmentProof]
  · simp [commitmentPreimage, leBytes8, hsh, hn]
  · intro hne
    refine ⟨fun heq => hne (commitmentPreimage_inj sh n sh' n' a a'
      hsh hsh' ha ha' heq hn hn'), fun hv => ?_⟩
    simpa [verifyCommitmentProof, computeCommitment] using hv
  · intro c cr ck r now hcomm hnul hallow hv
    simp [private_withdraw, private_withdraw_core, hcomm, hnul, hallow, hv]
  · intro c cr ck r now hcomm hnul hallow hv hspent hamt hbal htw hwc
    simp [private_withdraw, private_withdraw_core, hcomm, hnul, hallow, hv,
      hspent, hamt, checkedAdd, Nat.not_lt.mpr hbal, htw, hwc, Except.isOk, Except.toBool]

/-- Witness for C6 at concrete byte strings and amounts. -/
theorem commitment_roundtrip_witness :
    (List.replicate 32 0 : Key).length = 32 ∧
    (List.replicate 32 1 : Key).length = 32 ∧
    (List.replicate 32 2 : Key).length = 32 ∧
    (List.replicate 32 3 : Key).length = 32 ∧
    100000000 < U64MOD ∧ 500000000 < U64MOD ∧
    verifyCommitmentProof idHash
      (computeCommitment idHash (List.replicate 32 0) (List.replicate 32 1) 100000000)
      (List.replicate 32 0) (List.replicate 32 1) 100000000 = true :=
  ⟨by decide, by decide, by decide, by decide, by decide, by decide,
    (commitment_roundtrip idHash (List.replicate 32 0) (List.replicate 32 1)
      (List.replicate 32 2) (List.replicate 32 3) 100000000 500000000
      (by decide) (by decide) (by decide) (by decide) (by decide) (by decide)).1⟩

/-- C8: on an existing pending withdrawal, `claim_withdraw` fails with
`AlreadyClaimed` when the record is claimed and with `WithdrawNotReady`
when called before `available_at`; at/after `available_at` on an
unclaimed record with sufficient pool funds it succeeds, transfers
exactly the stored amount, sets `claimed = true`, and a re-claim then
fails with `AlreadyClaimed`; every failure leaves the state unchanged. -/
theorem claim_withdraw_once (c : Chain) (recipient : Key) (now : Int)
    (p : PendingWithdraw)
    (hp : c.pendings recipient = some p)
    (hrec : p.recipient = recipient) :
    (p.claimed = true → claim_withdraw c recipient now = .error .AlreadyClaimed) ∧
    (p.claimed = false → now < p.available_at →
      claim_withdraw c recipient now = .error .WithdrawNotReady) ∧
    (p.claimed = false → p.available_at ≤ now → p.amount ≤ c.poolVault →
      c.pool.total_withdrawn + p.amount < U64MOD →
      c.pool.withdraw_count + 1 < U64MOD →
      ∃ c', claim_withdraw c recipient now = .ok c' ∧
        c'.poolVault = c.poolVault - p.amount ∧
        c'.pool.total_withdrawn = c.pool.total_withdrawn + p.amount ∧
        c'.pool.withdraw_count = c.pool.withdraw_count + 1 ∧
        c'.pendings recipient = some { p with claimed := true } ∧
        ∀ now2', claim_withdraw c' recipient now2' = .error .AlreadyClaimed) ∧
    (∀ (H : List Nat → Key) (e : Err),
      claim_withdraw c recipient now = .error e →
      runOp H c (.claimWithdraw recipient now) = c) := by
  refine ⟨?_, ?_, ?_, ?_⟩
  · intro hcl
    simp [claim_withdraw, hp, hrec, hcl]
  · intro hcl hnow
    simp [claim_withdraw, hp, hrec, hcl, hnow]
  · intro hcl hnow hbal htw hwc
    have heq : claim_withdraw c recipient now = .ok
        { c with
            poolVault := c.poolVault - p.amount,
            pendings := upd c.pendings recipient (some { p with claimed := true }),
            pool := { c.pool with
                        total_withdrawn := c.pool.total_withdrawn + p.amount,
                        withdraw_count := c.pool.withdraw_count + 1 } } := by
      simp [claim_withdraw, hp, hrec, hcl, Int.not_lt.mpr hnow,
        Nat.not_lt.mpr hbal, checkedAdd, htw, hwc]
    refine ⟨_, heq, rfl, rfl, rfl, by simp [upd], ?_⟩
    intro now2'
    simp [claim_withdraw, upd, hrec]
  · intro H e he
    simp [runOp, exec, he]

/-- Witness for C8: a funded pool with one unclaimed pending withdrawal. -/
theorem claim_withdraw_once_witness :
    ({ initChain with
        poolVault := 100000000,
        pendings := upd initChain.pendings (List.replicate 32 5)
          (some ⟨List.replicate 32 5, 100000000, 0, 40, false⟩) } : Chain).pendings
      (List.replicate 32 5) = some ⟨List.replicate 32 5, 100000000, 0, 40, false⟩ ∧
    (⟨List.replicate 32 5, 100000000, 0, 40, false⟩ : PendingWithdraw).recipient =
      List.replicate 32 5 ∧
    ((⟨List.replicate 32 5, 100000000, 0, 40, false⟩ : PendingWithdraw).claimed = false →
      (40 : Int) < (⟨List.replicate 32 5, 100000000, 0, 40, false⟩ : PendingWithdraw).available_at →
      claim_withdraw
        { initChain with
            poolVault := 100000000,
            pendings := upd initChain.pendings (List.replicate 32 5)
              (some ⟨List.replicate 32 5, 100000000, 0, 40, false⟩) }
        (List.replicate 32 5) 40 = .error .WithdrawNotReady) :=
  ⟨by decide, by decide,
    (claim_withdraw_once _ (List.replicate 32 5) 40 _ (by decide) (by decide)).2.1⟩

/-- C3 counterexample: the claim fails for `deposit` — `pool_deposit`
only requires `amount > 0`, so depositing 7 lamports (not an allowed
amount) from a funded depositor into the fresh pool succeeds. -/
theorem amount_restriction_counterexample :
    (7 ∉ ALLOWED_AMOUNTS) ∧
    (pool_deposit initChain 7 1000000000).isOk = true := by
  exact ⟨by decide, by decide⟩

/-- C3 amended: `request_withdraw`, `private_deposit` and
`private_withdraw` reject every amount outside
`{100_000_000, 500_000_000, 1_000_000_000}` (with
`InvalidWithdrawAmount`) and accept each member when their other
preconditions hold; `pool_deposit`, by contrast, rejects only
`amount = 0` and accepts any positive amount with a funded depositor. -/
theorem amount_restriction_amended (H : List Nat → Key) (c : Chain)
    (recipient cm ck nl sh r : Key) (amount bal : Nat) (now : Int)
    (slot : Nat) :
    (pool_deposit c 0 bal = .error .InvalidAmount) ∧
    (amount ≠ 0 → amount ≤ bal →
      c.pool.total_deposited + amount < U64MOD →
      c.pool.deposit_count + 1 < U64MOD →
      (pool_deposit c amount bal).isOk = true) ∧
    (c.pendings recipient = none → amount ∉ ALLOWED_AMOUNTS →
      request_withdraw c recipient amount now slot =
        .error .InvalidWithdrawAmount) ∧
    (c.pendings recipient = none → amount ∈ ALLOWED_AMOUNTS →
      amount ≤ c.poolVault →
      (request_withdraw c recipient amount now slot).isOk = true) ∧
    (c.commitments cm = none → amount ∉ ALLOWED_AMOUNTS →
      private_deposit c cm amount bal now = .error .InvalidWithdrawAmount) ∧
    (c.commitments cm = none → amount ∈ ALLOWED_AMOUNTS → amount ≤ bal →
      c.pool.total_deposited + amount < U64MOD →
      c.pool.deposit_count + 1 < U64MOD →
      (private_deposit c cm amount bal now).isOk = true) ∧
    (∀ cr : CommitmentPDA, c.commitments ck = some cr →
      c.nullifiers nl = none → amount ∉ ALLOWED_AMOUNTS →
      private_withdraw H c ck nl sh r amount now =
        .error .InvalidWithdrawAmount) ∧
    (∀ cr : CommitmentPDA, c.commitments ck = some cr →
      c.nullifiers nl = none → amount ∈ ALLOWED_AMOUNTS →
      verifyCommitmentProof H cr.commitment sh nl amount = true →
      cr.spent = false → cr.amount = amount → amount ≤ c.poolVault →
      c.pool.total_withdrawn + amount < U64MOD →
      c.pool.withdraw_count + 1 < U64MOD →
      (private_withdraw H c ck nl sh r amount now).isOk = true) := by
  refine ⟨?_, ?_, ?_, ?_, ?_, ?_, ?_, ?_⟩
  · simp [pool_deposit]
  · intro h0 hbal htd hdc
    simp [pool_deposit, h0, Nat.not_lt.mpr hbal, checkedAdd, htd, hdc,
      Except.isOk, Except.toBool]
  · intro hpend hnall
    simp [request_withdraw, hpend, hnall]
  · intro hpend hall hbal
    simp [request_withdraw, hpend, hall, Nat.not_lt.mpr hbal,
      Except.isOk, Except.toBool]
  · intro hcm hnall
    simp [private_deposit, hcm, hnall]
  · intro hcm hall hbal htd hdc
    simp [private_deposit, hcm, hall, Nat.not_lt.mpr hbal, checkedAdd,
      htd, hdc, Except.isOk, Except.toBool]
  · intro cr hck hnul hnall
    simp [private_withdraw, private_withdraw_core, hck, hnul, hnall]
  · intro cr hck hnul hall hv hspent hcamt hbal htw hwc
    simp [private_withdraw, private_withdraw_core, hck, hnul, hall, hv,
      hspent, hcamt, Nat.not_lt.mpr hbal, checkedAdd, htw, hwc,
      Except.isOk, Except.toBool]

/-- Witness for C3's amended theorem: the three scheduler/commitment
entry points at concrete inputs. -/
theorem amount_restriction_amended_witness :
    (({ initChain with poolVault := 1000000000 } : Chain).pendings
        (List.replicate 32 9) = none) ∧
    ((123 : Nat) ∉ ALLOWED_AMOUNTS) ∧
    (request_withdraw { initChain with poolVault := 1000000000 }
        (List.replicate 32 9) 123 0 0 = .error .InvalidWithdrawAmount) :=
  ⟨rfl, by decide,
    (amount_restriction_amended idHash
        { initChain with poolVault := 1000000000 }
        (List.replicate 32 9) [] [] [] [] [] 123 0 0 0).2.2.1
      rfl (by decide)⟩

/-- C4 counterexample: a bundle whose ed25519 verification instruction
declares a signer different from the pending withdrawal's recipient is
NOT rejected — `claim_withdraw_relayed` succeeds on a ready pending
withdrawal for recipient `5…5` even though the verification instruction
names signer `77…77`. -/
theorem relayed_signer_counterexample :
    ((⟨ED25519_PROGRAM_ID, List.replicate 32 77⟩ : Ed25519Ix).signer ≠
      List.replicate 32 5) ∧
    (claim_withdraw_relayed
        { initChain with
            poolVault := 100000000,
            pendings := upd initChain.pendings (List.replicate 32 5)
              (some ⟨List.replicate 32 5, 100000000, 0, 40, false⟩) }
        (List.replicate 32 5) (List.replicate 32 5) 50
        (some ⟨ED25519_PROGRAM_ID, List.replicate 32 77⟩)).isOk = true :=
  ⟨by decide, by decide⟩

/-- C4 amended: `claim_withdraw_relayed` succeeds only when the bundle's
instruction 0 exists and was produced by the ed25519 program AND the
supplied recipient account equals the pending withdrawal's stored
recipient; the signer declared inside the verification instruction is
never inspected, so with the other preconditions met the call succeeds
for every declared signer. -/
theorem relayed_claim_authorization (c : Chain) (recipientKey pendKey : Key)
    (now : Int) (p : PendingWithdraw)
    (hp : c.pendings pendKey = some p)
    (hrec : p.recipient = recipientKey)
    (hcl : p.claimed = false)
    (hnow : p.available_at ≤ now)
    (hbal : p.amount ≤ c.poolVault)
    (htw : c.pool.total_withdrawn + p.amount < U64MOD)
    (hwc : c.pool.withdraw_count + 1 < U64MOD) :
    (claim_withdraw_relayed c recipientKey pendKey now none =
      .error .MissingInstruction) ∧
    (∀ ix : Ed25519Ix, ix.programId ≠ ED25519_PROGRAM_ID →
      claim_withdraw_relayed c recipientKey pendKey now (some ix) =
        .error .InvalidSignatureInstruction) ∧
    (∀ signer : Key,
      (claim_withdraw_relayed c recipientKey pendKey now
        (some ⟨ED25519_PROGRAM_ID, signer⟩)).isOk = true) ∧
    (∀ (rk' : Key) (ix : Ed25519Ix), p.recipient ≠ rk' →
      claim_withdraw_relayed c rk' pendKey now (some ix) =
        .error .Unauthorized) := by
  refine ⟨?_, ?_, ?_, ?_⟩
  · simp [claim_withdraw_relayed, hp, hrec, hcl, Int.not_lt.mpr hnow]
  · intro ix hpid
    simp [claim_withdraw_relayed, hp, hrec, hcl, Int.not_lt.mpr hnow, hpid]
  · intro signer
    simp [claim_withdraw_relayed, hp, hrec, hcl, Int.not_lt.mpr hnow,
      Nat.not_lt.mpr hbal, checkedAdd, htw, hwc, Except.isOk, Except.toBool]
  · intro rk' ix hne
    simp [claim_withdraw_relayed, hp, hne]

/-- Witness for C4's amended theorem on the concrete ready state. -/
theorem relayed_claim_authorization_witness :
    (({ initChain with
          poolVault := 100000000,
          pendings := upd initChain.pendings (List.replicate 32 5)
            (some ⟨List.replicate 32 5, 100000000, 0, 40, false⟩) } : Chain).pendings
        (List.replicate 32 5) =
      some ⟨List.replicate 32 5, 100000000, 0, 40, false⟩) ∧
    (claim_withdraw_relayed
        { initChain with
            poolVault := 100000000,
            pendings := upd initChain.pendings (List.replicate 32 5)
              (some ⟨List.replicate 32 5, 100000000, 0, 40, false⟩) }
        (List.replicate 32 5) (List.replicate 32 5) 50 none =
      .error .MissingInstruction) :=
  ⟨by decide,
    (relayed_claim_authorization _ (List.replicate 32 5) (List.replicate 32 5)
        50 ⟨List.replicate 32 5, 100000000, 0, 40, false⟩ (by decide) (by decide)
        (by decide) (by decide) (by decide) (by decide) (by decide)).1⟩

theorem upd_isSome {β : Type} (f : Key → Option β) (k k' : Key) (v : β)
    (h : (f k).isSome = true) : ((upd f k' (some v)) k).isSome = true := by
  unfold upd
  split <;> simp [h]

theorem batch_foldl_pendings_isSome (now : Int) (pairs : List (Key × Key))
    (acc : BatchAcc) (k : Key) (hk : (acc.pendings k).isSome = true) :
    ((pairs.foldl (batch_step now) acc).pendings k).isSome = true := by
  induction pairs generalizing acc with
  | nil => exact hk
  | cons hd tl ih =>
    refine ih _ ?_
    unfold batch_step
    cases hpd : acc.pendings hd.2 with
    | none => exact hk
    | some p =>
      dsimp only
      split_ifs <;> first
        | exact hk
        | exact upd_isSome _ _ _ _ hk

/-- No successful instruction ever deletes an entry of the pending /
commitment / nullifier ledgers: entries are only created or updated in
place. -/
theorem exec_ledgers_mono (H : List Nat → Key) (c : Chain) (op : Op)
    (c' : Chain) (h : exec H c op = .ok c') (k : Key) :
    ((c.pendings k).isSome = true → (c'.pendings k).isSome = true) ∧
    ((c.commitments k).isSome = true → (c'.commitments k).isSome = true) ∧
    ((c.nullifiers k).isSome = true → (c'.nullifiers k).isSome = true) := by
  cases op with
  | poolDeposit a bal =>
    simp only [exec, pool_deposit] at h
    repeat' first
      | split at h
      | split_ifs at h
    all_goals try simp at h
    all_goals subst h
    exact ⟨id, id, id⟩
  | requestWithdraw r a now slot =>
    simp only [exec, request_withdraw] at h
    repeat' first
      | split at h
      | split_ifs at h
    all_goals try simp at h
    all_goals subst h
    exact ⟨fun hk => upd_isSome _ _ _ _ hk, id, id⟩
  | claimWithdraw r now =>
    simp only [exec, claim_withdraw] at h
    repeat' first
      | split at h
      | split_ifs at h
    all_goals try simp at h
    all_goals subst h
    exact ⟨fun hk => upd_isSome _ _ _ _ hk, id, id⟩
  | claimWithdrawRelayed rk pk now ix =>
    simp only [exec, claim_withdraw_relayed] at h
    repeat' first
      | split at h
      | split_ifs at h
    all_goals try simp at h
    all_goals subst h
    exact ⟨fun hk => upd_isSome _ _ _ _ hk, id, id⟩
  | privateDeposit cm a bal now =>
    simp only [exec, private_deposit] at h
    repeat' first
      | split at h
      | split_ifs at h
    all_goals try simp at h
    all_goals subst h
    exact ⟨id, fun hk => upd_isSome _ _ _ _ hk, id⟩
  | privateWithdraw ck n sh r a now =>
    simp only [exec, private_withdraw, private_withdraw_core] at h
    repeat' first
      | split at h
      | split_ifs at h
    all_goals try simp at h
    all_goals subst h
    exact ⟨id, fun hk => upd_isSome _ _ _ _ hk, fun hk => upd_isSome _ _ _ _ hk⟩
  | privateWithdrawRelayed ck n sh r a now ix =>
    simp only [exec, private_withdraw_relayed, private_withdraw_core] at h
    repeat' first
      | split at h
      | split_ifs at h
    all_goals try simp at h
    all_goals subst h
    exact ⟨id, fun hk => upd_isSome _ _ _ _ hk, fun hk => upd_isSome _ _ _ _ hk⟩
  | batchClaim rem now =>
    simp only [exec, batch_claim_withdraw] at h
    repeat' split_ifs at h
    all_goals try simp at h
    all_goals subst h
    all_goals exact ⟨fun hk => batch_foldl_pendings_isSome now (toPairs rem) _ k hk, id, id⟩
  | initChurnVault i =>
    simp only [exec, init_churn_vault] at h
    repeat' split_ifs at h
    all_goals try simp at h
    all_goals subst h
    exact ⟨id, id, id⟩
  | poolChurn i a =>
    simp only [exec, pool_churn] at h
    repeat' first
      | split at h
      | split_ifs at h
    all_goals try simp at h
    all_goals subst h
    exact ⟨id, id, id⟩
  | poolUnchurn i a =>
    simp only [exec, pool_unchurn] at h
    repeat' first
      | split at h
      | split_ifs at h
    all_goals try simp at h
    all_goals subst h
    exact ⟨id, id, id⟩

theorem runOps_ledgers_mono (H : List Nat → Key) (c : Chain) (ops : List Op)
    (k : Key) :
    ((c.pendings k).isSome = true →
      ((runOps H c ops).pendings k).isSome = true) ∧
    ((c.commitments k).isSome = true →
      ((runOps H c ops).commitments k).isSome = true) ∧
    ((c.nullifiers k).isSome = true →
      ((runOps H c ops).nullifiers k).isSome = true) := by
  induction ops generalizing c with
  | nil => exact ⟨id, id, id⟩
  | cons hd tl ih =>
    have hstep := fun c' (h : exec H c hd = .ok c') => exec_ledgers_mono H c hd c' h k
    refine ⟨?_, ?_, ?_⟩ <;> intro hk <;>
      simp only [runOps, List.foldl_cons, runOp] <;>
      [skip; skip; skip]
    · cases hex : exec H c hd with
      | ok c' => exact ((ih c').1 ((hstep c' hex).1 hk))
      | error e => exact (ih c).1 hk
    · cases hex : exec H c hd with
      | ok c' => exact ((ih c').2.1 ((hstep c' hex).2.1 hk))
      | error e => exact (ih c).2.1 hk
    · cases hex : exec H c hd with
      | ok c' => exact ((ih c').2.2 ((hstep c' hex).2.2 hk))
      | error e => exact (ih c).2.2 hk

/-- Once a nullifier record exists, every `private_withdraw` /
`private_withdraw_relayed` referencing that nullifier fails during
account resolution, whatever the other arguments are. -/
theorem private_withdraw_core_blocked (H : List Nat → Key) (c : Chain)
    (ck n sh r : Key) (a : Nat) (now : Int)
    (relayIx : Option (Option Ed25519Ix))
    (h : (c.nullifiers n).isSome = true) :
    (private_withdraw_core H c ck n sh r a now relayIx).isOk = false := by
  simp only [private_withdraw_core]
  cases hck : c.commitments ck <;>
    simp [hck, h, Except.isOk, Except.toBool]

/-- C1: when a `private_withdraw` (or, via the instruction-checked core,
a `private_withdraw_relayed`) succeeds with nullifier `n`, then after any
sequence of further instructions every later `private_withdraw` and
`private_withdraw_relayed` supplying the same `n` fails, regardless of
which commitment account, secret hash, amount or recipient it supplies:
creating the nullifier record fails because one with that key exists. -/
theorem nullifier_single_use (H : List Nat → Key) (c : Chain)
    (cr : CommitmentPDA) (ck n sh r : Key) (a : Nat) (now : Int)
    (relayIx : Option (Option Ed25519Ix))
    (hck : c.commitments ck = some cr)
    (hnul : c.nullifiers n = none)
    (hall : a ∈ ALLOWED_AMOUNTS)
    (hv : verifyCommitmentProof H cr.commitment sh n a = true)
    (hspent : cr.spent = false)
    (hamt : cr.amount = a)
    (hbal : a ≤ c.poolVault)
    (htw : c.pool.total_withdrawn + a < U64MOD)
    (hwc : c.pool.withdraw_count + 1 < U64MOD)
    (hix : relayIx = none ∨
      ∃ ix : Ed25519Ix, relayIx = some (some ix) ∧
        ix.programId = ED25519_PROGRAM_ID) :
    ∃ c', private_withdraw_core H c ck n sh r a now relayIx = .ok c' ∧
      ∀ (ops : List Op) (ck' sh' r' : Key) (a' : Nat) (now' : Int)
        (firstIx' : Option Ed25519Ix),
        (private_withdraw H (runOps H c' ops) ck' n sh' r' a' now').isOk
          = false ∧
        (private_withdraw_relayed H (runOps H c' ops) ck' n sh' r' a' now'
          firstIx').isOk = false := by
  have hsucc : private_withdraw_core H c ck n sh r a now relayIx = .ok
      { c with
          poolVault := c.poolVault - a,
          commitments := upd c.commitments ck (some { cr with spent := true }),
          nullifiers := upd c.nullifiers n (some ⟨n, now⟩),
          pool := { c.pool with
                      total_withdrawn := c.pool.total_withdrawn + a,
                      withdraw_count := c.pool.withdraw_count + 1 } } := by
    rcases hix with rfl | ⟨ix, rfl, hpid⟩
    · simp [private_withdraw_core, hck, hnul, hall, hv, hspent, hamt,
        Nat.not_lt.mpr hbal, checkedAdd, htw, hwc]
    · simp [private_withdraw_core, hck, hnul, hall, hv, hspent, hamt,
        Nat.not_lt.mpr hbal, checkedAdd, htw, hwc, hpid]
  refine ⟨_, hsucc, ?_⟩
  intro ops ck' sh' r' a' now' firstIx'
  have hn' := (runOps_ledgers_mono H
    { c with
        poolVault := c.poolVault - a,
        commitments := upd c.commitments ck (some { cr with spent := true }),
        nullifiers := upd c.nullifiers n (some ⟨n, now⟩),
        pool := { c.pool with
                    total_withdrawn := c.pool.total_withdrawn + a,
                    withdraw_count := c.pool.withdraw_count + 1 } }
    ops n).2.2 (by simp [upd])
  exact ⟨private_withdraw_core_blocked H _ ck' n sh' r' a' now' none hn',
    private_withdraw_core_blocked H _ ck' n sh' r' a' now' (some firstIx') hn'⟩

/-- Witness for C1: a concrete deposit-then-withdraw scenario with the
identity hash; the commitment key is the 72-byte preimage itself. -/
theorem nullifier_single_use_witness :
    (({ initChain with
          poolVault := 100000000,
          commitments := upd initChain.commitments
            (commitmentPreimage (List.replicate 32 1) (List.replicate 32 2)
              100000000)
            (some ⟨commitmentPreimage (List.replicate 32 1)
              (List.replicate 32 2) 100000000, 100000000, 0, false⟩) } :
        Chain).commitments
      (commitmentPreimage (List.replicate 32 1) (List.replicate 32 2)
        100000000) =
      some ⟨commitmentPreimage (List.replicate 32 1) (List.replicate 32 2)
        100000000, 100000000, 0, false⟩) ∧
    (verifyCommitmentProof idHash
      (commitmentPreimage (List.replicate 32 1) (List.replicate 32 2)
        100000000)
      (List.replicate 32 1) (List.replicate 32 2) 100000000 = true) ∧
    (∃ c', private_withdraw_core idHash
        { initChain with
            poolVault := 100000000,
            commitments := upd initChain.commitments
              (commitmentPreimage (List.replicate 32 1) (List.replicate 32 2)
                100000000)
              (some ⟨commitmentPreimage (List.replicate 32 1)
                (List.replicate 32 2) 100000000, 100000000, 0, false⟩) }
        (commitmentPreimage (List.replicate 32 1) (List.replicate 32 2)
          100000000)
        (List.replicate 32 2) (List.replicate 32 1) (List.replicate 32 9)
        100000000 7 none = .ok c' ∧
      ∀ (ops : List Op) (ck' sh' r' : Key) (a' : Nat) (now' : Int)
        (firstIx' : Option Ed25519Ix),
        (private_withdraw idHash (runOps idHash c' ops) ck'
          (List.replicate 32 2) sh' r' a' now').isOk = false ∧
        (private_withdraw_relayed idHash (runOps idHash c' ops) ck'
          (List.replicate 32 2) sh' r' a' now' firstIx').isOk = false) :=
  ⟨by decide, by decide,
    nullifier_single_use idHash _
      ⟨commitmentPreimage (List.replicate 32 1) (List.replicate 32 2)
        100000000, 100000000, 0, false⟩
      _ _ _ _ 100000000 7 none
      (by decide) (by decide) (by decide) (by decide) (by decide) (by decide)
      (by decide) (by decide) (by decide) (Or.inl rfl)⟩

/-- C7: a `private_deposit` with a fresh commitment succeeds and stores
the record; afterwards, whatever other instructions run, every later
`private_deposit` with the same commitment fails with
`AccountAlreadyInitialized` and, the whole instruction aborting, leaves
the chain state (in particular the stored record's amount, timestamp
and spent flag) unchanged — it never silently overwrites. -/
theorem commitment_unique (c : Chain) (cm : Key) (amount depositorBal : Nat)
    (now : Int)
    (hfresh : c.commitments cm = none)
    (hall : amount ∈ ALLOWED_AMOUNTS)
    (hbal : amount ≤ depositorBal)
    (htd : c.pool.total_deposited + amount < U64MOD)
    (hdc : c.pool.deposit_count + 1 < U64MOD) :
    ∃ c', private_deposit c cm amount depositorBal now = .ok c' ∧
      c'.commitments cm = some ⟨cm, amount, now, false⟩ ∧
      ∀ (H : List Nat → Key) (ops : List Op) (a2 b2 : Nat) (t2 : Int),
        private_deposit (runOps H c' ops) cm a2 b2 t2 =
          .error .AccountAlreadyInitialized ∧
        runOp H (runOps H c' ops) (.privateDeposit cm a2 b2 t2) =
          runOps H c' ops := by
  have hsucc : private_deposit c cm amount depositorBal now = .ok
      { c with
          poolVault := c.poolVault + amount,
          commitments := upd c.commitments cm (some ⟨cm, amount, now, false⟩),
          pool := { c.pool with
                      total_deposited := c.pool.total_deposited + amount,
                      deposit_count := c.pool.deposit_count + 1 } } := by
    simp [private_deposit, hfresh, hall, Nat.not_lt.mpr hbal, checkedAdd,
      htd, hdc]
  refine ⟨_, hsucc, by simp [upd], ?_⟩
  intro H ops a2 b2 t2
  have hcm' := (runOps_ledgers_mono H
    { c with
        poolVault := c.poolVault + amount,
        commitments := upd c.commitments cm (some ⟨cm, amount, now, false⟩),
        pool := { c.pool with
                    total_deposited := c.pool.total_deposited + amount,
                    deposit_count := c.pool.deposit_count + 1 } }
    ops cm).2.1 (by simp [upd])
  refine ⟨?_, ?_⟩
  · simp [private_deposit, hcm']
  · simp [runOp, exec, private_deposit, hcm']

/-- Witness for C7: deposit a concrete commitment into the fresh pool,
then observe the repeat deposit fail after a claim-unrelated operation. -/
theorem commitment_unique_witness :
    (initChain.commitments (List.replicate 32 4) = none) ∧
    ((500000000 : Nat) ∈ ALLOWED_AMOUNTS) ∧
    (∃ c', private_deposit initChain (List.replicate 32 4) 500000000
        1000000000 11 = .ok c' ∧
      c'.commitments (List.replicate 32 4) =
        some ⟨List.replicate 32 4, 500000000, 11, false⟩ ∧
      ∀ (H : List Nat → Key) (ops : List Op) (a2 b2 : Nat) (t2 : Int),
        private_deposit (runOps H c' ops) (List.replicate 32 4) a2 b2 t2 =
          .error .AccountAlreadyInitialized ∧
        runOp H (runOps H c' ops)
          (.privateDeposit (List.replicate 32 4) a2 b2 t2) =
          runOps H c' ops) :=
  ⟨rfl, by decide,
    commitment_unique initChain (List.replicate 32 4) 500000000 1000000000 11
      rfl (by decide) (by decide) (by decide) (by decide)⟩

/-- C10 (implicit): the pending-withdrawal PDA is keyed solely by the
recipient and never closed, so after one successful `request_withdraw`
for a recipient every later `request_withdraw` for the same recipient —
even after the pending withdrawal has been claimed — fails with
`AccountAlreadyInitialized`: each recipient can use the scheduler at
most once. -/
theorem request_withdraw_once_per_recipient (c : Chain) (recipient : Key)
    (amount : Nat) (now : Int) (slot : Nat)
    (hfresh : c.pendings recipient = none)
    (hall : amount ∈ ALLOWED_AMOUNTS)
    (hbal : amount ≤ c.poolVault) :
    ∃ c', request_withdraw c recipient amount now slot = .ok c' ∧
      ∀ (H : List Nat → Key) (ops : List Op) (a2 : Nat) (t2 : Int)
        (s2 : Nat),
        request_withdraw (runOps H c' ops) recipient a2 t2 s2 =
          .error .AccountAlreadyInitialized := by
  have hsucc : request_withdraw c recipient amount now slot = .ok
      { c with
          pendings := upd c.pendings recipient
            (some ⟨recipient, amount, now,
              now + variableDelay slot (recipient.headD 0) (recipient.getD 31 0),
              false⟩) } := by
    simp [request_withdraw, hfresh, hall, Nat.not_lt.mpr hbal]
  refine ⟨_, hsucc, ?_⟩
  intro H ops a2 t2 s2
  have hp' := (runOps_ledgers_mono H
    { c with
        pendings := upd c.pendings recipient
          (some ⟨recipient, amount, now,
            now + variableDelay slot (recipient.headD 0) (recipient.getD 31 0),
            false⟩) }
    ops recipient).1 (by simp [upd])
  unfold request_withdraw
  rw [if_pos hp']

/-- Witness for C10: request for a concrete recipient, then — with the
pending withdrawal even claimed in between — a second request fails. -/
theorem request_withdraw_once_per_recipient_witness :
    (({ initChain with poolVault := 100000000 } : Chain).pendings
      (List.replicate 32 6) = none) ∧
    ((100000000 : Nat) ∈ ALLOWED_AMOUNTS) ∧
    (∃ c', request_withdraw { initChain with poolVault := 100000000 }
        (List.replicate 32 6) 100000000 0 3 = .ok c' ∧
      ∀ (H : List Nat → Key) (ops : List Op) (a2 : Nat) (t2 : Int)
        (s2 : Nat),
        request_withdraw (runOps H c' ops) (List.replicate 32 6) a2 t2 s2 =
          .error .AccountAlreadyInitialized) :=
  ⟨rfl, by decide,
    request_withdraw_once_per_recipient _ (List.replicate 32 6) 100000000 0 3
      rfl (by decide) (by decide)⟩

/-- C9: `batch_claim_withdraw` hard-fails exactly on the structural
precondition (flattened account-list length in [2,10] and even) and on
nothing else; a batch of 2 pairs with pair 1 claimable and pair 2
already claimed returns success, transfers exactly pair 1's amount,
marks pair 1 claimed, leaves pair 2 untouched, and aggregates one
success into the pool counters with saturating arithmetic. -/
theorem batch_partial_tolerance (c : Chain) (r1 r2 : Key) (now : Int)
    (p1 p2 : PendingWithdraw)
    (hr : r1 ≠ r2)
    (hp1 : c.pendings r1 = some p1)
    (hp2 : c.pendings r2 = some p2)
    (hrec1 : p1.recipient = r1)
    (hcl1 : p1.claimed = false)
    (hready1 : p1.available_at ≤ now)
    (hbal1 : p1.amount ≤ c.poolVault)
    (hlt1 : p1.amount < U64MOD)
    (hrec2 : p2.recipient = r2)
    (hcl2 : p2.claimed = true) :
    (∀ rem : List Key, 2 ≤ rem.length → rem.length ≤ 10 →
      rem.length % 2 = 0 → (batch_claim_withdraw c rem now).isOk = true) ∧
    (∀ rem : List Key,
      rem.length < 2 ∨ 10 < rem.length ∨ rem.length % 2 ≠ 0 →
      (batch_claim_withdraw c rem now).isOk = false) ∧
    (∃ c', batch_claim_withdraw c [r1, r1, r2, r2] now = .ok c' ∧
      c'.poolVault = c.poolVault - p1.amount ∧
      c'.pool.total_withdrawn = satAdd c.pool.total_withdrawn p1.amount ∧
      c'.pool.withdraw_count = satAdd c.pool.withdraw_count 1 ∧
      c'.pendings r1 = some { p1 with claimed := true } ∧
      c'.pendings r2 = some p2) := by
  have h0 : satAdd 0 p1.amount = p1.amount := by
    simp only [satAdd, Nat.zero_add]
    omega
  refine ⟨?_, ?_, ?_⟩
  · intro rem h1 h2 h3
    simp [batch_claim_withdraw, Nat.not_lt.mpr h1, h3, Nat.not_lt.mpr h2,
      Except.isOk, Except.toBool]
  · intro rem hviol
    unfold batch_claim_withdraw
    split_ifs with h1 h2 h3 <;>
      simp_all [Except.isOk, Except.toBool]
  · have step1 : batch_step now ⟨c.poolVault, c.pendings, 0, 0⟩ (r1, r1) =
        ⟨c.poolVault - p1.amount,
          upd c.pendings r1 (some { p1 with claimed := true }),
          satAdd 0 p1.amount, 1⟩ := by
      simp [batch_step, hp1, hrec1, hcl1, Int.not_lt.mpr hready1,
        Nat.not_lt.mpr hbal1]
    have step2 : batch_step now
        ⟨c.poolVault - p1.amount,
          upd c.pendings r1 (some { p1 with claimed := true }),
          satAdd 0 p1.amount, 1⟩ (r2, r2) =
        ⟨c.poolVault - p1.amount,
          upd c.pendings r1 (some { p1 with claimed := true }),
          satAdd 0 p1.amount, 1⟩ := by
      have hur : (upd c.pendings r1
          (some { p1 with claimed := true })) r2 = some p2 := by
        simp [upd, Ne.symm hr, hp2]
      simp [batch_step, hur, hcl2, hrec2]
    have hfold : batch_claim_withdraw c [r1, r1, r2, r2] now = .ok
        { c with
            poolVault := c.poolVault - p1.amount,
            pendings := upd c.pendings r1 (some { p1 with claimed := true }),
            pool := { c.pool with
                        total_withdrawn :=
                          satAdd c.pool.total_withdrawn (satAdd 0 p1.amount),
                        withdraw_count := satAdd c.pool.withdraw_count 1 } } := by
      unfold batch_claim_withdraw
      simp only [List.length_cons, List.length_nil, toPairs, List.foldl,
        step1, step2]
      norm_num
    refine ⟨_, hfold, rfl, ?_, rfl, by simp [upd], ?_⟩
    · simp only [h0]
    · simp [upd, Ne.symm hr, hp2]

/-- Witness for C9: two concrete pendings, the second already claimed. -/
theorem batch_partial_tolerance_witness :
    (List.replicate 32 1 ≠ List.replicate 32 2) ∧
    (∃ c', batch_claim_withdraw
        { initChain with
            poolVault := 100000000,
            pendings := upd
              (upd initChain.pendings (List.replicate 32 1)
                (some ⟨List.replicate 32 1, 100000000, 0, 40, false⟩))
              (List.replicate 32 2)
              (some ⟨List.replicate 32 2, 500000000, 0, 40, true⟩) }
        [List.replicate 32 1, List.replicate 32 1,
         List.replicate 32 2, List.replicate 32 2] 50 = .ok c' ∧
      c'.poolVault = 100000000 - 100000000 ∧
      c'.pool.total_withdrawn = satAdd 0 100000000 ∧
      c'.pool.withdraw_count = satAdd 0 1 ∧
      c'.pendings (List.replicate 32 1) =
        some ⟨List.replicate 32 1, 100000000, 0, 40, true⟩ ∧
      c'.pendings (List.replicate 32 2) =
        some ⟨List.replicate 32 2, 500000000, 0, 40, true⟩) :=
  ⟨by decide,
    (batch_partial_tolerance _ (List.replicate 32 1) (List.replicate 32 2) 50
      ⟨List.replicate 32 1, 100000000, 0, 40, false⟩
      ⟨List.replicate 32 2, 500000000, 0, 40, true⟩
      (by decide) (by decide) (by decide) (by decide) (by decide) (by decide)
      (by decide) (by decide) (by decide) (by decide)).2.2⟩

theorem checkedAdd_some (a b x : Nat) (h : checkedAdd a b = some x) :
    x = a + b ∧ a + b < U64MOD := by
  unfold checkedAdd at h
  split at h <;> simp_all

/-- The batch loop conserves value: the vault balance plus the running
`total_claimed` is constant, and `total_claimed` stays zero while no
pair has succeeded (so the saturating additions never actually clip
while the invariant's bound holds). -/
theorem batch_foldl_conserve (now : Int) (V : Nat) (hV : V < U64MOD)
    (pairs : List (Key × Key)) (acc : BatchAcc)
    (hsum : acc.vault + acc.total_claimed = V)
    (hzero : acc.success_count = 0 → acc.total_claimed = 0) :
    (pairs.foldl (batch_step now) acc).vault +
      (pairs.foldl (batch_step now) acc).total_claimed = V ∧
    ((pairs.foldl (batch_step now) acc).success_count = 0 →
      (pairs.foldl (batch_step now) acc).total_claimed = 0) := by
  induction pairs generalizing acc with
  | nil => exact ⟨hsum, hzero⟩
  | cons hd tl ih =>
    simp only [List.foldl_cons]
    refine ih _ ?_ ?_
    · unfold batch_step
      cases hpd : acc.pendings hd.2 with
      | none => exact hsum
      | some p =>
        dsimp only
        split_ifs with h1 h2 h3 h4 <;> try exact hsum
        have h4' := Nat.not_lt.mp h4
        simp only [satAdd]
        omega
    · unfold batch_step
      cases hpd : acc.pendings hd.2 with
      | none => exact hzero
      | some p =>
        dsimp only
        split_ifs <;> try exact hzero
        intro hc
        simp at hc

theorem private_withdraw_core_preserves_inv (H : List Nat → Key) (c : Chain)
    (ck n sh r : Key) (a : Nat) (now : Int)
    (relayIx : Option (Option Ed25519Ix)) (c' : Chain)
    (h : private_withdraw_core H c ck n sh r a now relayIx = .ok c')
    (hinv : Inv c) : Inv c' := by
  rcases relayIx with _ | ⟨_ | ix⟩
  all_goals simp only [private_withdraw_core] at h
  all_goals (split at h <;> try simp at h)
  all_goals (split_ifs at h <;> try simp at h)
  all_goals (
    cases htw : checkedAdd c.pool.total_withdrawn a with
    | none => rw [htw] at h; simp at h
    | some tw =>
      rw [htw] at h
      cases hwc : checkedAdd c.pool.withdraw_count 1 with
      | none => rw [hwc] at h; simp at h
      | some wc =>
        rw [hwc] at h
        simp only [Except.ok.injEq] at h
        subst h
        obtain ⟨htw1, htw2⟩ := checkedAdd_some _ _ _ htw
        obtain ⟨hc1, hc2, hc3⟩ := hinv
        refine ⟨?_, ?_, hc3⟩
        · simp [custody] at *
          omega
        · dsimp only
          omega)

/-- Every instruction that succeeds preserves the pool bookkeeping
invariant: the lamports it moves into or out of custody are matched,
in the same step, by the pool's aggregate counters. -/
theorem exec_preserves_inv (H : List Nat → Key) (c : Chain) (op : Op)
    (c' : Chain) (h : exec H c op = .ok c') (hinv : Inv c) : Inv c' := by
  cases op with
  | poolDeposit a bal =>
    simp only [exec, pool_deposit] at h
    split_ifs at h <;> try simp at h
    cases htd : checkedAdd c.pool.total_deposited a with
    | none => rw [htd] at h; simp at h
    | some td =>
      rw [htd] at h
      cases hdc : checkedAdd c.pool.deposit_count 1 with
      | none => rw [hdc] at h; simp at h
      | some dc =>
        rw [hdc] at h
        simp only [Except.ok.injEq] at h
        subst h
        obtain ⟨htd1, htd2⟩ := checkedAdd_some _ _ _ htd
        obtain ⟨hc1, hc2, hc3⟩ := hinv
        refine ⟨?_, ?_, hc3⟩
        · simp [custody] at *
          omega
        · dsimp only
          omega
  | requestWithdraw r a now slot =>
    simp only [exec, request_withdraw] at h
    split_ifs at h <;> try simp at h
    subst h
    exact hinv
  | claimWithdraw r now =>
    simp only [exec, claim_withdraw] at h
    split at h
    next => simp at h
    next p heq =>
      split_ifs at h with h1 h2 h3 h4 <;> try simp at h
      cases htw : checkedAdd c.pool.total_withdrawn p.amount with
      | none => rw [htw] at h; simp at h
      | some tw =>
        rw [htw] at h
        cases hwc : checkedAdd c.pool.withdraw_count 1 with
        | none => rw [hwc] at h; simp at h
        | some wc =>
          rw [hwc] at h
          simp only [Except.ok.injEq] at h
          subst h
          obtain ⟨htw1, htw2⟩ := checkedAdd_some _ _ _ htw
          obtain ⟨hc1, hc2, hc3⟩ := hinv
          have h4' := Nat.not_lt.mp h4
          refine ⟨?_, ?_, hc3⟩
          · simp [custody] at *
            omega
          · dsimp only
            omega
  | claimWithdrawRelayed rk pk now ix =>
    simp only [exec, claim_withdraw_relayed] at h
    split at h
    next => simp at h
    next p heq =>
      rcases ix with _ | ix1
      all_goals (split_ifs at h <;> try simp at h)
      all_goals try (split_ifs at h <;> try simp at h)
      all_goals (
        cases htw : checkedAdd c.pool.total_withdrawn p.amount with
        | none => rw [htw] at h; simp at h
        | some tw =>
          rw [htw] at h
          cases hwc : checkedAdd c.pool.withdraw_count 1 with
          | none => rw [hwc] at h; simp at h
          | some wc =>
            rw [hwc] at h
            simp only [Except.ok.injEq] at h
            subst h
            obtain ⟨htw1, htw2⟩ := checkedAdd_some _ _ _ htw
            obtain ⟨hc1, hc2, hc3⟩ := hinv
            refine ⟨?_, ?_, hc3⟩
            · simp [custody] at *
              omega
            · dsimp only
              omega)
  | privateDeposit cm a bal now =>
    simp only [exec, private_deposit] at h
    split_ifs at h <;> try simp at h
    cases htd : checkedAdd c.pool.total_deposited a with
    | none => rw [htd] at h; simp at h
    | some td =>
      rw [htd] at h
      cases hdc : checkedAdd c.pool.deposit_count 1 with
      | none => rw [hdc] at h; simp at h
      | some dc =>
        rw [hdc] at h
        simp only [Except.ok.injEq] at h
        subst h
        obtain ⟨htd1, htd2⟩ := checkedAdd_some _ _ _ htd
        obtain ⟨hc1, hc2, hc3⟩ := hinv
        refine ⟨?_, ?_, hc3⟩
        · simp [custody] at *
          omega
        · dsimp only
          omega
  | privateWithdraw ck n sh r a now =>
    exact private_withdraw_core_preserves_inv H c ck n sh r a now none c' h hinv
  | privateWithdrawRelayed ck n sh r a now ix =>
    exact private_withdraw_core_preserves_inv H c ck n sh r a now (some ix) c'
      h hinv
  | batchClaim rem now =>
    simp only [exec, batch_claim_withdraw] at h
    split_ifs at h with h1 h2 h3 h4 <;> try simp at h
    · -- some pair succeeded: saturating update of the aggregates
      subst h
      obtain ⟨hc1, hc2, hc3⟩ := hinv
      have hV : c.poolVault < U64MOD := by
        simp only [custody] at hc1
        omega
      obtain ⟨hsum, hzero⟩ := batch_foldl_conserve now c.poolVault hV
        (toPairs rem) ⟨c.poolVault, c.pendings, 0, 0⟩ (by simp) (by simp)
      refine ⟨?_, ?_, hc3⟩
      · simp [custody, satAdd] at *
        omega
      · dsimp only
        omega
    · -- no pair succeeded: the aggregates are untouched
      subst h
      obtain ⟨hc1, hc2, hc3⟩ := hinv
      have hV : c.poolVault < U64MOD := by
        simp only [custody] at hc1
        omega
      obtain ⟨hsum, hzero⟩ := batch_foldl_conserve now c.poolVault hV
        (toPairs rem) ⟨c.poolVault, c.pendings, 0, 0⟩ (by simp) (by simp)
      have hz := hzero (by omega)
      refine ⟨?_, hc2, hc3⟩
      simp [custody] at *
      omega
  | initChurnVault i =>
    simp only [exec, init_churn_vault] at h
    split_ifs at h with h1 h2 <;> try simp at h
    subst h
    obtain ⟨hc1, hc2, hc3⟩ := hinv
    refine ⟨hc1, hc2, ?_⟩
    intro j hj
    have hne : j ≠ i := by omega
    simp [upd, hne, hc3 j hj]
  | poolChurn i a =>
    simp only [exec, pool_churn] at h
    split at h
    next => simp at h
    next st heq =>
      split_ifs at h with h1 h2 <;> try simp at h
      subst h
      obtain ⟨hc1, hc2, hc3⟩ := hinv
      have hi : i < 3 := by
        by_contra hge
        exact absurd heq (by simp [hc3 i (by omega)])
      have h2' := Nat.not_lt.mp h2
      refine ⟨?_, hc2, ?_⟩
      · simp [custody] at *
        interval_cases i <;> simp [upd] <;> omega
      · intro j hj
        have hne : j ≠ i := by omega
        simp [upd, hne, hc3 j hj]
  | poolUnchurn i a =>
    simp only [exec, pool_unchurn] at h
    split at h
    next => simp at h
    next st heq =>
      split_ifs at h with h1 h2 <;> try simp at h
      subst h
      obtain ⟨hc1, hc2, hc3⟩ := hinv
      have hi : i < 3 := by
        by_contra hge
        exact absurd heq (by simp [hc3 i (by omega)])
      have h2' := Nat.not_lt.mp h2
      refine ⟨?_, hc2, hc3⟩
      simp [custody] at *
      interval_cases i <;> simp [upd] <;> omega

theorem inv_initChain : Inv initChain := by
  refine ⟨rfl, by decide, fun i hi => rfl⟩

theorem runOps_preserves_inv (H : List Nat → Key) (c : Chain) (ops : List Op)
    (hinv : Inv c) : Inv (runOps H c ops) := by
  induction ops generalizing c with
  | nil => exact hinv
  | cons hd tl ih =>
    simp only [runOps, List.foldl_cons]
    refine ih _ ?_
    unfold runOp
    cases hex : exec H c hd with
    | ok c' => exact exec_preserves_inv H c hd c' hex hinv
    | error e => exact hinv

/-- C2: in every state reachable from the freshly initialized pool by
the program's instructions, the custody balance (main pool vault plus
the churn vaults) equals `total_deposited − total_withdrawn`: each
instruction pairs the lamports it moves with the matching aggregate
update in the same atomic step. -/
theorem pool_conservation (H : List Nat → Key) (ops : List Op) :
    custody (runOps H initChain ops) +
        (runOps H initChain ops).pool.total_withdrawn =
      (runOps H initChain ops).pool.total_deposited ∧
    (runOps H initChain ops).pool.total_withdrawn ≤
      (runOps H initChain ops).pool.total_deposited := by
  have h := runOps_preserves_inv H initChain ops inv_initChain
  have h1 := h.1
  exact ⟨h1, by omega⟩

end Offuscate
